import Mathlib

/-!
Formal model of `github_privacy.py` (GitHub Repository Privacy Manager).

Python strings are modelled as lists of characters (`Str`).  The helpers
`pyStrip`, `pyLower`, `pySplit`, `pyInt` model `str.strip()`, `str.lower()`,
`str.split(sep)` for a one-character separator, and the builtin `int()` on
decimal string literals (ASCII model: surrounding whitespace, an optional
sign, digits with single underscores between digits).

HTTP traffic is modelled by response scripts: the n-th element of a list of
page responses answers the n-th page request of `get_public_repos`; a single
`AuthResp` answers the `GET /user` request of `test_authentication`; a
function from repository name to `PatchResp` answers the PATCH requests of
`make_repo_private`.  Console output is not modelled; user input is modelled
by the strings the program would read.
-/

abbrev Str := List Char

/-- The whitespace characters stripped by Python `str.strip()` (ASCII part). -/
def pyIsSpace (c : Char) : Bool :=
  c = ' ' || c = '\t' || c = '\n' || c = '\r' || c = '\x0b' || c = '\x0c'

/-- Python `str.strip()`. -/
def pyStrip (s : Str) : Str :=
  ((s.dropWhile pyIsSpace).reverse.dropWhile pyIsSpace).reverse

/-- Python `str.lower()` (ASCII model). -/
def pyLower (s : Str) : Str :=
  s.map Char.toLower

/-- Python `str.split(sep)` for a one-character separator `sep`:
splits at every occurrence of `sep`, keeping empty pieces. -/
def pySplit (sep : Char) : Str → List Str
  | [] => [[]]
  | c :: rest =>
    if c = sep then [] :: pySplit sep rest
    else
      match pySplit sep rest with
      | [] => [[c]]
      | h :: t => (c :: h) :: t

/-- The value of a string of decimal digits. -/
def digitsVal (s : Str) : Nat :=
  s.foldl (fun a c => 10 * a + (c.toNat - 48)) 0

/-- Parse a nonempty string of plain decimal digits. -/
def pyDigits? (s : Str) : Option Nat :=
  if s ≠ [] ∧ s.all Char.isDigit = true then some (digitsVal s) else none

/-- Parse an unsigned decimal literal the way Python `int()` does after the
sign: digits, possibly with single underscores between digits. -/
def pyUnderscoreDigits? (s : Str) : Option Nat :=
  if (pySplit '_' s).all (fun ch => decide (ch ≠ []) && ch.all Char.isDigit) = true then
    pyDigits? (s.filter (fun c => decide (c ≠ '_')))
  else none

/-- Python `int()` on a decimal string: strips whitespace, then an optional
sign followed by an underscore-separated digit string; `none` models the
`ValueError` raised on anything else. -/
def pyInt (s : Str) : Option Int :=
  let t := pyStrip s
  if t.head? = some '+' then (pyUnderscoreDigits? t.tail).map (fun (n : Nat) => (n : Int))
  else if t.head? = some '-' then
    (pyUnderscoreDigits? t.tail).map (fun (n : Nat) => -(n : Int))
  else (pyUnderscoreDigits? t).map (fun (n : Nat) => (n : Int))

/-- A repository summary as used by the tool: the `name` field and the
`owner.login` field (`none` models a missing owner login key, read through
`repo.get('owner', {}).get('login')`). -/
structure Repo where
  name : Str
  owner_login : Option Str
  deriving DecidableEq

/-- Python `range(a, b)` as a list of integers. -/
def pyRange (a b : Int) : List Int :=
  (List.range (b - a).toNat).map (fun (k : Nat) => a + (k : Int))

/-- The names contributed by the 1-indexed position `i`: the source appends
`repos[i-1]['name']` when `1 <= i <= len(repos)` and silently drops `i`
otherwise. -/
def refNames (repos : List Repo) (i : Int) : List Str :=
  if 1 ≤ i ∧ i ≤ (repos.length : Int) then
    ((repos.get? (i - 1).toNat).map Repo.name).toList
  else []

/-- The range branch of `interactive_selection`: `start, end = map(int,
part.split('-'))` demands exactly two integer pieces (any other shape raises
`ValueError`), then iterates `range(start, end + 1)` keeping in-range
positions. -/
def parseRangePieces (repos : List Repo) (pieces : List Str) : Option (List Str) :=
  match pieces with
  | [sa, sb] =>
    match pyInt sa, pyInt sb with
    | some a, some b => some ((pyRange a (b + 1)).flatMap (refNames repos))
    | _, _ => none
  | _ => none

/-- One comma-separated token of `interactive_selection`: stripped, then
treated as a range when it contains `'-'` and as a single integer otherwise;
`none` models the `ValueError` that rejects the whole input. -/
def parsePart (repos : List Repo) (part0 : Str) : Option (List Str) :=
  let part := pyStrip part0
  if ('-') ∈ part then parseRangePieces repos (pySplit '-' part)
  else
    match pyInt part with
    | some i => some (refNames repos i)
    | none => none

/-- The token loop of `interactive_selection`: every token must parse, and
the contributed names are concatenated in order. -/
def parseParts (repos : List Repo) : List Str → Option (List Str)
  | [] => some []
  | p :: rest =>
    match parsePart repos p, parseParts repos rest with
    | some ns, some ms => some (ns ++ ms)
    | _, _ => none

def quitStr : Str := ['q', 'u', 'i', 't']
def allStr : Str := ['a', 'l', 'l']
def yesStr : Str := ['y', 'e', 's']
def yStr : Str := ['y']

/-- One pass of the `while True` loop of `interactive_selection` on one line
of user input: strip and lowercase, handle `quit` and `all`, otherwise parse
the comma-separated tokens; `some` is a `return`, `none` is the re-prompt
after `ValueError`/`IndexError`.  `list(set(...))` is modelled by
`List.dedup` (the source's order is unspecified). -/
def interactive_attempt (repos : List Repo) (input : Str) : Option (List Str) :=
  let s := pyLower (pyStrip input)
  if s = quitStr then some []
  else if s = allStr then some (repos.map Repo.name)
  else (parseParts repos (pySplit ',' s)).map List.dedup

/-- The re-prompt loop of `interactive_selection` over the successive lines
of user input; `none` means every line was rejected (the real loop would
still be prompting). -/
def selection_loop (repos : List Repo) : List Str → Option (List Str)
  | [] => none
  | inp :: rest =>
    match interactive_attempt repos inp with
    | some r => some r
    | none => selection_loop repos rest

/-- `interactive_selection`: returns `[]` at once on an empty repository
list, otherwise loops over the user's input lines. -/
def interactive_selection (repos : List Repo) (inputs : List Str) : Option (List Str) :=
  if repos.isEmpty then some [] else selection_loop repos inputs

example : pySplit ',' ['a', ',', 'b'] = [['a'], ['b']] := by decide
example : pySplit ',' [] = [[]] := by decide
example : pyInt [' ', '1', '2'] = some 12 := by decide
example : pyInt ['+', '5'] = some 5 := by decide
example : pyInt ['-', '5'] = some (-5) := by decide
example : pyInt ['1', '_', '0'] = some 10 := by decide
example : pyInt ['1', '_', '_', '0'] = none := by decide
example : pyInt [] = none := by decide
example : pyInt ['a'] = none := by decide

example :
    interactive_attempt [⟨['a'], none⟩, ⟨['b'], none⟩, ⟨['c'], none⟩]
      ['1', '-', '2', ',', '4'] = some [['a'], ['b']] := by decide
example :
    interactive_attempt [⟨['a'], none⟩] ['x'] = none := by decide
example :
    interactive_attempt [⟨['a'], none⟩] ['A', 'L', 'L'] = some [['a']] := by decide
example :
    interactive_attempt [⟨['a'], none⟩] [' ', 'q', 'u', 'i', 't'] = some [] := by decide
example :
    interactive_attempt [⟨['a'], none⟩] ['3', '-', '1'] = some [] := by decide
example :
    interactive_attempt [⟨['a'], none⟩] ['-', '3'] = none := by decide
example :
    interactive_attempt [⟨['a'], none⟩, ⟨['b'], none⟩] ['1', ',', '1'] = some [['a']] := by decide

/-- The response to the `GET /user` authentication check: an HTTP status
with the optional `login` field of the JSON body, or a network error. -/
inductive AuthResp where
  | ok (status : Nat) (login : Option Str)
  | netErr
  deriving DecidableEq

/-- How `test_authentication` ends: returning `True`, returning `False`, or
raising an exception that its `except requests.RequestException` does not
catch. -/
inductive AuthResult where
  | retTrue
  | retFalse
  | raised
  deriving DecidableEq

/-- `test_authentication`: on status 200 it reads `user_data['login']` and
returns `True`; a missing `login` key there raises `KeyError`, which the
handler (limited to `requests.RequestException`) does not catch.  Any other
status returns `False`; a network error is caught and returns `False`. -/
def test_authentication (r : AuthResp) : AuthResult :=
  match r with
  | .netErr => .retFalse
  | .ok status login =>
    if status = 200 then
      match login with
      | some _ => .retTrue
      | none => .raised
    else .retFalse

/-- The response to one page request of `get_public_repos`: the JSON list of
repositories, or a request error (any `requests.RequestException`, including
a non-2xx status surfaced by `raise_for_status`). -/
inductive PageResp where
  | ok (items : List Repo)
  | err
  deriving DecidableEq

/-- The client-side owner filter of `get_public_repos`: keep exactly the
repositories whose `owner.login` equals the configured username. -/
def ownedFilter (username : Str) (items : List Repo) : List Repo :=
  items.filter (fun r => decide (r.owner_login = some username))

/-- `get_public_repos` over a response script whose n-th entry answers the
n-th page request: an empty page or a request error breaks the loop; each
fetched page is owner-filtered and appended in order.  An exhausted script
models the server returning no further pages. -/
def get_public_repos (username : Str) : List PageResp → List Repo
  | [] => []
  | .err :: _ => []
  | .ok items :: rest =>
    if items.isEmpty then []
    else ownedFilter username items ++ get_public_repos username rest

/-- The response to the PATCH request of `make_repo_private`: an HTTP status
or a network error. -/
inductive PatchResp where
  | ok (status : Nat)
  | netErr
  deriving DecidableEq

/-- `make_repo_private`: `response.raise_for_status()` raises exactly for
statuses in `[400, 600)`; the exception (also on network error) is caught
and yields `False`, every other response yields `True`. -/
def make_repo_private (resp : PatchResp) : Bool :=
  match resp with
  | .ok status => if 400 ≤ status ∧ status < 600 then false else true
  | .netErr => false

/-- The update loop of `process_repos`: one PATCH attempt per selected name
(first component, in order) and the tally of successful updates (second
component); a failed update is counted as unsuccessful and the loop goes
on. -/
def process_repos (patchOf : Str → PatchResp) : List Str → List Str × Nat
  | [] => ([], 0)
  | n :: rest =>
    let res := process_repos patchOf rest
    if make_repo_private (patchOf n) then (n :: res.1, res.2 + 1)
    else (n :: res.1, res.2)

/-- `confirm_action`: an empty selection returns `False` before any prompt;
otherwise the response is stripped and lowercased and compared against
`yes` and `y`. -/
def confirm_action (repo_names : List Str) (resp : Str) : Bool :=
  if repo_names.isEmpty then false
  else
    let c := pyLower (pyStrip resp)
    if c = yesStr ∨ c = yStr then true else false

/-- The batch argument parsing of `main`: split on commas and strip each
name. -/
def batch_parse (batch : Str) : List Str :=
  (pySplit ',' batch).map pyStrip

/-- The batch selection of `main`: the input names that occur among the
fetched repository names (a list comprehension, so input order and
multiplicity are kept). -/
def batch_selected (repos : List Repo) (batch : Str) : List Str :=
  (batch_parse batch).filter (fun n => decide (n ∈ repos.map Repo.name))

/-- The `missing` report of `main`: `set(repo_names) - set(selected_repos)`,
modelled as a deduplicated list. -/
def batch_missing (repos : List Repo) (batch : Str) : List Str :=
  ((batch_parse batch).filter
    (fun n => decide (n ∉ batch_selected repos batch))).dedup

/-- The effective CLI mode of one run: `--list`, `--all`, `--batch <arg>`,
or interactive (the source checks the flags in this order). -/
inductive Mode where
  | listOnly
  | allFlag
  | batch (arg : Str)
  | interactive

/-- One run's environment: the resolved credentials, the scripted responses
of the remote API, the CLI mode, and the scripted lines of user input. -/
structure World where
  token : Str
  username : Str
  authResp : AuthResp
  pages : List PageResp
  mode : Mode
  selInputs : List Str
  confirmResp : Str
  patchResp : Str → PatchResp

/-- What one run did: the process exit code (`none` while the interactive
loop is still re-prompting), whether the repository listing was fetched, and
the names PATCHed, in order. -/
structure Trace where
  exitCode : Option Nat
  listed : Bool
  patchCalls : List Str
  deriving DecidableEq

/-- Lines 293-296 of `main`: run the updates only when the selection is
nonempty and the user confirmed, otherwise print `Operation cancelled.`;
either way the run returns normally (exit code 0). -/
def afterSelect (repos : List Repo) (sel : List Str) (w : World) : Trace :=
  if !sel.isEmpty && confirm_action sel w.confirmResp then
    ⟨some 0, true, (process_repos w.patchResp sel).1⟩
  else ⟨some 0, true, []⟩

/-- The selection dispatch of `main`: `--all` wins, a nonempty `--batch`
argument selects by name (an empty one is falsy and falls through to the
interactive prompt), otherwise the interactive loop runs. -/
def mainSelect (w : World) (repos : List Repo) : Option (List Str) :=
  match w.mode with
  | .listOnly => some []
  | .allFlag => some (repos.map Repo.name)
  | .batch arg =>
    if arg.isEmpty then interactive_selection repos w.selInputs
    else some (batch_selected repos arg)
  | .interactive => interactive_selection repos w.selInputs

/-- `main`: missing credentials exit 1; a non-`True` authentication result
exits 1 before any listing (`False` via `sys.exit(1)`, the uncaught
`KeyError` via the generic exception handler); `--list` stops after the
listing; otherwise the selected names flow into the confirmation and update
step and the run exits 0. -/
def run_main (w : World) : Trace :=
  if w.token.isEmpty || w.username.isEmpty then ⟨some 1, false, []⟩
  else
    match test_authentication w.authResp with
    | .retTrue =>
      let repos := get_public_repos w.username w.pages
      match w.mode with
      | .listOnly => ⟨some 0, true, []⟩
      | _ =>
        match mainSelect w repos with
        | some sel => afterSelect repos sel w
        | none => ⟨none, true, []⟩
    | .retFalse => ⟨some 1, false, []⟩
    | .raised => ⟨some 1, false, []⟩

/-- The grammar of the selection claim: an integer token (a digit string) or
an `N-M` range token (two digit strings joined by `'-'`). -/
inductive Tok where
  | num (ds : Str)
  | rng (a b : Str)
  deriving DecidableEq

def digitChars : Str := ['0', '1', '2', '3', '4', '5', '6', '7', '8', '9']

/-- Wellformedness of a token: its digit strings are nonempty and consist of
decimal digits. -/
def digitStrB (s : Str) : Bool :=
  decide (s ≠ []) && s.all (fun c => decide (c ∈ digitChars))

def Tok.wfB : Tok → Bool
  | .num ds => digitStrB ds
  | .rng a b => digitStrB a && digitStrB b

/-- The concrete text of a token. -/
def Tok.render : Tok → Str
  | .num ds => ds
  | .rng a b => a ++ '-' :: b

/-- The 1-indexed positions a token refers to (an `N-M` token refers to the
inclusive range from `N` to `M`). -/
def Tok.refs : Tok → List Int
  | .num ds => [((digitsVal ds : Nat) : Int)]
  | .rng a b => pyRange ((digitsVal a : Nat) : Int) (((digitsVal b : Nat) : Int) + 1)

/-- All positions referred to by a token list. -/
def toksRefs (ts : List Tok) : List Int := ts.flatMap Tok.refs

/-- Join strings with commas (the inverse image of `pySplit ','`). -/
def joinComma : List Str → Str
  | [] => []
  | [x] => x
  | x :: y :: rest => x ++ ',' :: joinComma (y :: rest)

/-- The selection string made of the given comma-joined tokens. -/
def renderToks (ts : List Tok) : Str := joinComma (ts.map Tok.render)

/-- The names one token contributes to the selection. -/
def tokNames (repos : List Repo) (t : Tok) : List Str :=
  t.refs.flatMap (refNames repos)

/-! ### Helper lemmas about the string model -/

theorem dropWhile_eq_self_of_false (p : Char → Bool) (s : Str)
    (h : ∀ c ∈ s, p c = false) : s.dropWhile p = s := by
  cases s with
  | nil => rfl
  | cons c cs => simp [List.dropWhile, h c (by simp)]

theorem pyStrip_eq_self (s : Str) (h : ∀ c ∈ s, pyIsSpace c = false) :
    pyStrip s = s := by
  unfold pyStrip
  rw [dropWhile_eq_self_of_false pyIsSpace s h]
  rw [dropWhile_eq_self_of_false pyIsSpace s.reverse
    (fun c hc => h c (List.mem_reverse.mp hc))]
  exact List.reverse_reverse s

theorem pyLower_eq_self (s : Str) (h : ∀ c ∈ s, Char.toLower c = c) :
    pyLower s = s := by
  unfold pyLower
  induction s with
  | nil => rfl
  | cons c cs ih =>
    simp only [List.map_cons, h c (by simp)]
    rw [ih (fun d hd => h d (by simp [hd]))]

theorem pySplit_no_sep (sep : Char) (s : Str) (h : sep ∉ s) :
    pySplit sep s = [s] := by
  induction s with
  | nil => rfl
  | cons c cs ih =>
    have hc : ¬ c = sep := fun e => h (by simp [e])
    have hcs : pySplit sep cs = [cs] := ih (fun m => h (List.mem_cons_of_mem _ m))
    simp [pySplit, hc, hcs]

theorem pySplit_append (sep : Char) (a b : Str) (h : sep ∉ a) :
    pySplit sep (a ++ sep :: b) = a :: pySplit sep b := by
  induction a with
  | nil => simp [pySplit]
  | cons c cs ih =>
    have hc : ¬ c = sep := fun e => h (by simp [e])
    have ih2 := ih (fun m => h (List.mem_cons_of_mem _ m))
    simp [pySplit, hc, ih2]

theorem joinComma_split : ∀ (parts : List Str), parts ≠ [] →
    (∀ p ∈ parts, (',') ∉ p) → pySplit ',' (joinComma parts) = parts
  | [], h, _ => absurd rfl h
  | [x], _, h2 => by
    rw [joinComma]
    exact pySplit_no_sep ',' x (h2 x (by simp))
  | x :: y :: rest, _, h2 => by
    rw [joinComma]
    rw [pySplit_append ',' x _ (h2 x (by simp))]
    rw [joinComma_split (y :: rest) (by simp) (fun p hp => h2 p (by simp [hp]))]

theorem joinComma_chars : ∀ (parts : List Str) (c : Char),
    c ∈ joinComma parts → (∃ p ∈ parts, c ∈ p) ∨ c = ','
  | [], _, hc => by simp [joinComma] at hc
  | [x], c, hc => by
    rw [joinComma] at hc
    exact Or.inl ⟨x, by simp, hc⟩
  | x :: y :: rest, c, hc => by
    rw [joinComma] at hc
    rcases List.mem_append.mp hc with h | h
    · exact Or.inl ⟨x, by simp, h⟩
    · rcases List.mem_cons.mp h with h | h
      · exact Or.inr h
      · rcases joinComma_chars (y :: rest) c h with ⟨p, hp, hcp⟩ | h
        · exact Or.inl ⟨p, by simp [List.mem_cons.mp hp], hcp⟩
        · exact Or.inr h

theorem digitStrB_spec (s : Str) (h : digitStrB s = true) :
    s ≠ [] ∧ ∀ c ∈ s, c ∈ digitChars := by
  unfold digitStrB at h
  simp only [Bool.and_eq_true, decide_eq_true_eq, List.all_eq_true] at h
  exact h

/-- The character-level facts the parser proofs need about decimal digits. -/
theorem digitChar_facts (c : Char) (hc : c ∈ digitChars) :
    Char.toLower c = c ∧ pyIsSpace c = false ∧ Char.isDigit c = true ∧
    ¬ c = '+' ∧ ¬ c = '-' ∧ ¬ c = ',' ∧ ¬ c = '_' ∧ ¬ c = 'q' ∧ ¬ c = 'a' := by
  simp only [digitChars, List.mem_cons, List.not_mem_nil, or_false] at hc
  rcases hc with rfl | rfl | rfl | rfl | rfl | rfl | rfl | rfl | rfl | rfl <;> decide

theorem pyStrip_digits (s : Str) (hd : ∀ c ∈ s, c ∈ digitChars) :
    pyStrip s = s :=
  pyStrip_eq_self s (fun c hc => (digitChar_facts c (hd c hc)).2.1)

theorem pyUnderscoreDigits_digits (s : Str) (hne : s ≠ [])
    (hd : ∀ c ∈ s, c ∈ digitChars) :
    pyUnderscoreDigits? s = some (digitsVal s) := by
  unfold pyUnderscoreDigits?
  have hsplit : pySplit '_' s = [s] :=
    pySplit_no_sep '_' s (fun m => (digitChar_facts '_' (hd '_' m)).2.2.2.2.2.2.1 rfl)
  rw [hsplit]
  have hall : s.all Char.isDigit = true := by
    rw [List.all_eq_true]
    exact fun c hc => (digitChar_facts c (hd c hc)).2.2.1
  have hfil : s.filter (fun c => decide (¬ c = '_')) = s := by
    rw [List.filter_eq_self]
    intro c hc
    simp [(digitChar_facts c (hd c hc)).2.2.2.2.2.2.1]
  simp only [List.all_cons, List.all_nil, hall, Bool.and_true, decide_eq_true_eq]
  rw [if_pos (by simp [hne])]
  rw [hfil]
  unfold pyDigits?
  rw [if_pos ⟨hne, hall⟩]

theorem pyInt_digits (s : Str) (h : digitStrB s = true) :
    pyInt s = some ((digitsVal s : Nat) : Int) := by
  obtain ⟨hne, hd⟩ := digitStrB_spec s h
  unfold pyInt
  simp only [pyStrip_digits s hd]
  cases s with
  | nil => exact absurd rfl hne
  | cons c cs =>
    have hc := digitChar_facts c (hd c (by simp))
    rw [if_neg (by simp [List.head?]; exact hc.2.2.2.1)]
    rw [if_neg (by simp [List.head?]; exact hc.2.2.2.2.1)]
    rw [pyUnderscoreDigits_digits (c :: cs) (by simp) hd]
    rfl

theorem parsePart_num (repos : List Repo) (ds : Str) (h : digitStrB ds = true) :
    parsePart repos ds = some (refNames repos ((digitsVal ds : Nat) : Int)) := by
  obtain ⟨hne, hd⟩ := digitStrB_spec ds h
  unfold parsePart
  simp only [pyStrip_digits ds hd]
  rw [if_neg (fun m => (digitChar_facts '-' (hd '-' m)).2.2.2.2.1 rfl)]
  rw [pyInt_digits ds h]

theorem parseRangePieces_pair (repos : List Repo) (sa sb : Str) :
    parseRangePieces repos [sa, sb] =
      match pyInt sa, pyInt sb with
      | some a, some b => some ((pyRange a (b + 1)).flatMap (refNames repos))
      | _, _ => none := rfl

theorem parsePart_rng (repos : List Repo) (a b : Str)
    (ha : digitStrB a = true) (hb : digitStrB b = true) :
    parsePart repos (a ++ '-' :: b) =
      some ((pyRange ((digitsVal a : Nat) : Int) (((digitsVal b : Nat) : Int) + 1)).flatMap
        (refNames repos)) := by
  obtain ⟨hane, had⟩ := digitStrB_spec a ha
  obtain ⟨hbne, hbd⟩ := digitStrB_spec b hb
  have hstrip : pyStrip (a ++ '-' :: b) = a ++ '-' :: b := by
    apply pyStrip_eq_self
    intro c hc
    rcases List.mem_append.mp hc with h1 | h1
    · exact (digitChar_facts c (had c h1)).2.1
    · rcases List.mem_cons.mp h1 with rfl | h1
      · decide
      · exact (digitChar_facts c (hbd c h1)).2.1
  unfold parsePart
  simp only [hstrip]
  rw [if_pos (by simp)]
  rw [pySplit_append '-' a b
    (fun m => (digitChar_facts '-' (had '-' m)).2.2.2.2.1 rfl)]
  rw [pySplit_no_sep '-' b
    (fun m => (digitChar_facts '-' (hbd '-' m)).2.2.2.2.1 rfl)]
  rw [parseRangePieces_pair]
  rw [pyInt_digits a ha, pyInt_digits b hb]

theorem tok_wf_rng (a b : Str) (h : Tok.wfB (Tok.rng a b) = true) :
    digitStrB a = true ∧ digitStrB b = true := by
  simp only [Tok.wfB, Bool.and_eq_true] at h
  exact h

theorem parsePart_render (repos : List Repo) (t : Tok) (h : t.wfB = true) :
    parsePart repos t.render = some (tokNames repos t) := by
  cases t with
  | num ds =>
    simp only [Tok.render]
    rw [parsePart_num repos ds h]
    simp [tokNames, Tok.refs]
  | rng a b =>
    obtain ⟨ha, hb⟩ := tok_wf_rng a b h
    simp only [Tok.render]
    rw [parsePart_rng repos a b ha hb]
    simp [tokNames, Tok.refs]

theorem parseParts_map (repos : List Repo) : ∀ (ts : List Tok),
    ts.all Tok.wfB = true →
    parseParts repos (ts.map Tok.render) = some (ts.flatMap (tokNames repos))
  | [], _ => rfl
  | t :: ts, h => by
    simp only [List.all_cons, Bool.and_eq_true] at h
    rw [List.map_cons]
    unfold parseParts
    rw [parsePart_render repos t h.1, parseParts_map repos ts h.2]
    simp

theorem parseParts_none (repos : List Repo) : ∀ (parts : List Str) (p : Str),
    p ∈ parts → parsePart repos p = none → parseParts repos parts = none
  | [], p, hp, _ => absurd hp (List.not_mem_nil p)
  | q :: rest, p, hp, hn => by
    unfold parseParts
    rcases List.mem_cons.mp hp with rfl | hmem
    · rw [hn]
    · rw [parseParts_none repos rest p hmem hn]
      cases parsePart repos q <;> rfl

theorem mem_refNames (repos : List Repo) (i : Int) (nm : Str) :
    nm ∈ refNames repos i ↔
      1 ≤ i ∧ i ≤ (repos.length : Int) ∧
        (repos.get? (i - 1).toNat).map Repo.name = some nm := by
  unfold refNames
  by_cases h : 1 ≤ i ∧ i ≤ (repos.length : Int)
  · rw [if_pos h]
    simp only [h.1, h.2, true_and]
    cases ho : (repos.get? (i - 1).toNat).map Repo.name with
    | none => simp [ho]
    | some x =>
      simp only [Option.toList_some, List.mem_singleton, Option.some.injEq]
      exact eq_comm
  · rw [if_neg h]
    simp only [List.not_mem_nil, false_iff]
    intro hcon
    exact h ⟨hcon.1, hcon.2.1⟩

theorem mem_pyRange (a b i : Int) : i ∈ pyRange a b ↔ a ≤ i ∧ i < b := by
  unfold pyRange
  simp only [List.mem_map, List.mem_range]
  constructor
  · rintro ⟨k, hk, rfl⟩
    omega
  · rintro ⟨h1, h2⟩
    exact ⟨(i - a).toNat, by omega, by omega⟩

theorem render_chars (t : Tok) (h : t.wfB = true) :
    ∀ c ∈ t.render, c ∈ digitChars ∨ c = '-' := by
  cases t with
  | num ds =>
    intro c hc
    exact Or.inl ((digitStrB_spec ds h).2 c hc)
  | rng a b =>
    obtain ⟨ha, hb⟩ := tok_wf_rng a b h
    intro c hc
    simp only [Tok.render, List.mem_append, List.mem_cons] at hc
    rcases hc with h1 | h1 | h1
    · exact Or.inl ((digitStrB_spec a ha).2 c h1)
    · exact Or.inr h1
    · exact Or.inl ((digitStrB_spec b hb).2 c h1)

theorem renderToks_chars (ts : List Tok) (h : ts.all Tok.wfB = true) :
    ∀ c ∈ renderToks ts, c ∈ digitChars ∨ c = '-' ∨ c = ',' := by
  intro c hc
  rcases joinComma_chars (ts.map Tok.render) c hc with ⟨p, hp, hcp⟩ | hcom
  · obtain ⟨t, ht, rfl⟩ := List.mem_map.mp hp
    have hwf : t.wfB = true := List.all_eq_true.mp h t ht
    rcases render_chars t hwf c hcp with h1 | h1
    · exact Or.inl h1
    · exact Or.inr (Or.inl h1)
  · exact Or.inr (Or.inr hcom)

theorem renderToks_norm (ts : List Tok) (h : ts.all Tok.wfB = true) :
    pyLower (pyStrip (renderToks ts)) = renderToks ts := by
  have hchars := renderToks_chars ts h
  rw [pyStrip_eq_self (renderToks ts) (fun c hc => by
    rcases hchars c hc with h1 | h1 | h1
    · exact (digitChar_facts c h1).2.1
    · rw [h1]; decide
    · rw [h1]; decide)]
  exact pyLower_eq_self (renderToks ts) (fun c hc => by
    rcases hchars c hc with h1 | h1 | h1
    · exact (digitChar_facts c h1).1
    · rw [h1]; decide
    · rw [h1]; decide)

theorem renderToks_ne_quit (ts : List Tok) (h : ts.all Tok.wfB = true) :
    renderToks ts ≠ quitStr := by
  intro he
  have hq : 'q' ∈ renderToks ts := by rw [he]; decide
  rcases renderToks_chars ts h 'q' hq with h1 | h1 | h1
  · exact (digitChar_facts 'q' h1).2.2.2.2.2.2.2.1 rfl
  · exact absurd h1 (by decide)
  · exact absurd h1 (by decide)

theorem renderToks_ne_all (ts : List Tok) (h : ts.all Tok.wfB = true) :
    renderToks ts ≠ allStr := by
  intro he
  have hq : 'a' ∈ renderToks ts := by rw [he]; decide
  rcases renderToks_chars ts h 'a' hq with h1 | h1 | h1
  · exact (digitChar_facts 'a' h1).2.2.2.2.2.2.2.2 rfl
  · exact absurd h1 (by decide)
  · exact absurd h1 (by decide)

theorem renderToks_split (ts : List Tok) (hne : ts ≠ [])
    (h : ts.all Tok.wfB = true) :
    pySplit ',' (renderToks ts) = ts.map Tok.render := by
  apply joinComma_split
  · simp [hne]
  · intro p hp
    obtain ⟨t, ht, rfl⟩ := List.mem_map.mp hp
    intro hcm
    rcases render_chars t (List.all_eq_true.mp h t ht) ',' hcm with h1 | h1
    · exact (digitChar_facts ',' h1).2.2.2.2.2.1 rfl
    · exact absurd h1 (by decide)

theorem interactive_attempt_toks (repos : List Repo) (ts : List Tok)
    (hne : ts ≠ []) (h : ts.all Tok.wfB = true) :
    interactive_attempt repos (renderToks ts) =
      some ((ts.flatMap (tokNames repos)).dedup) := by
  unfold interactive_attempt
  simp only [renderToks_norm ts h]
  rw [if_neg (renderToks_ne_quit ts h), if_neg (renderToks_ne_all ts h)]
  rw [renderToks_split ts hne h, parseParts_map repos ts h]
  rfl

theorem afterSelect_exit (repos : List Repo) (sel : List Str) (w : World) :
    (afterSelect repos sel w).exitCode = some 0 ∧
      (afterSelect repos sel w).listed = true := by
  unfold afterSelect
  split <;> exact ⟨rfl, rfl⟩

/-! ### Claim theorems -/

/-- Claim C1: for every fetched repository list and every valid interactive
selection string (comma-joined integer tokens and `N-M` range tokens),
`interactive_selection` returns exactly the names at the referenced
1-indexed positions that are in range (out-of-range positions silently
dropped), deduplicated; and for every input containing a malformed token
(one its integer parser rejects: a non-integer single token or a malformed
range), the entire input is rejected — the attempt yields no selection and
the loop moves on to the next prompt — with no partial selection
returned. -/
theorem claim_C1 :
    (∀ (repos : List Repo) (ts : List Tok) (rest : List Str),
      ts ≠ [] → ts.all Tok.wfB = true →
      ∃ sel, interactive_selection repos (renderToks ts :: rest) = some sel ∧
        sel.Nodup ∧
        ∀ nm, nm ∈ sel ↔ ∃ i, i ∈ toksRefs ts ∧ 1 ≤ i ∧
          i ≤ (repos.length : Int) ∧
          (repos.get? (i - 1).toNat).map Repo.name = some nm) ∧
    (∀ (repos : List Repo) (input : Str) (rest : List Str),
      pyLower (pyStrip input) ≠ quitStr →
      pyLower (pyStrip input) ≠ allStr →
      (∃ p ∈ pySplit ',' (pyLower (pyStrip input)), parsePart repos p = none) →
      interactive_attempt repos input = none ∧
      interactive_selection repos (input :: rest) =
        interactive_selection repos rest) := by
  constructor
  · intro repos ts rest hne hwf
    by_cases hrep : repos.isEmpty
    · refine ⟨[], ?_, List.nodup_nil, ?_⟩
      · unfold interactive_selection
        rw [if_pos hrep]
      · intro nm
        simp only [List.not_mem_nil, false_iff]
        rintro ⟨i, _, h1, h2, _⟩
        rw [List.isEmpty_iff] at hrep
        subst hrep
        simp only [List.length_nil, Nat.cast_zero] at h2
        omega
    · refine ⟨(ts.flatMap (tokNames repos)).dedup, ?_, List.nodup_dedup _, ?_⟩
      · unfold interactive_selection
        rw [if_neg hrep]
        simp only [selection_loop, interactive_attempt_toks repos ts hne hwf]
      · intro nm
        rw [List.mem_dedup]
        simp only [tokNames, toksRefs, List.mem_flatMap, mem_refNames]
        constructor
        · rintro ⟨t, ht, i, hi, h1, h2, h3⟩
          exact ⟨i, ⟨t, ht, hi⟩, h1, h2, h3⟩
        · rintro ⟨i, ⟨t, ht, hi⟩, h1, h2, h3⟩
          exact ⟨t, ht, i, hi, h1, h2, h3⟩
  · intro repos input rest hq hall hex
    obtain ⟨p, hp, hnone⟩ := hex
    have hatt : interactive_attempt repos input = none := by
      simp only [interactive_attempt]
      rw [if_neg hq, if_neg hall]
      rw [parseParts_none repos (pySplit ',' (pyLower (pyStrip input))) p hp hnone]
      rfl
    refine ⟨hatt, ?_⟩
    unfold interactive_selection
    by_cases hrep : repos.isEmpty
    · rw [if_pos hrep, if_pos hrep]
    · rw [if_neg hrep, if_neg hrep]
      simp only [selection_loop, hatt]

def repoA : Repo := ⟨['a'], some ['u']⟩
def repoB : Repo := ⟨['b'], some ['u']⟩
def repoC : Repo := ⟨['c'], some ['u']⟩

/-- Witness for C1: the selection string `1,2-4` against the three
repositories `a b c`, and the rejected input `x` re-prompting. -/
theorem claim_C1_witness :
    (∃ sel, interactive_selection [repoA, repoB, repoC]
        (renderToks [Tok.num ['1'], Tok.rng ['2'] ['4']] :: []) = some sel ∧
      sel.Nodup ∧
      ∀ nm, nm ∈ sel ↔ ∃ i, i ∈ toksRefs [Tok.num ['1'], Tok.rng ['2'] ['4']] ∧
        1 ≤ i ∧ i ≤ (([repoA, repoB, repoC] : List Repo).length : Int) ∧
        (([repoA, repoB, repoC] : List Repo).get? (i - 1).toNat).map Repo.name =
          some nm) ∧
    (interactive_attempt [repoA] ['x'] = none ∧
      interactive_selection [repoA] (['x'] :: []) =
        interactive_selection [repoA] []) :=
  ⟨claim_C1.1 [repoA, repoB, repoC] [Tok.num ['1'], Tok.rng ['2'] ['4']] []
      (by decide) (by decide),
   claim_C1.2 [repoA] ['x'] [] (by decide) (by decide) (by decide)⟩

/-- Claim C9: a well-formed descending range token `N-M` with `N > M`
contributes no selections (the `range` is empty), and an input made of that
token alone is still accepted — the loop returns an empty selection instead
of re-prompting. -/
theorem claim_C9 (repos : List Repo) (a b : Str) (rest : List Str)
    (ha : digitStrB a = true) (hb : digitStrB b = true)
    (hlt : digitsVal b < digitsVal a) :
    parsePart repos (a ++ '-' :: b) = some [] ∧
    interactive_selection repos ((a ++ '-' :: b) :: rest) = some [] := by
  have hrange : pyRange ((digitsVal a : Nat) : Int)
      (((digitsVal b : Nat) : Int) + 1) = [] := by
    unfold pyRange
    have h0 : (((digitsVal b : Nat) : Int) + 1 -
        ((digitsVal a : Nat) : Int)).toNat = 0 := by omega
    rw [h0]
    rfl
  have hpart : parsePart repos (a ++ '-' :: b) = some [] := by
    rw [parsePart_rng repos a b ha hb, hrange]
    rfl
  refine ⟨hpart, ?_⟩
  have hatt : interactive_attempt repos (a ++ '-' :: b) = some [] := by
    have h1 : interactive_attempt repos (renderToks [Tok.rng a b]) =
        some (([Tok.rng a b].flatMap (tokNames repos)).dedup) :=
      interactive_attempt_toks repos [Tok.rng a b] (by simp)
        (by simp [List.all_cons, Tok.wfB, ha, hb])
    have h2 : renderToks [Tok.rng a b] = a ++ '-' :: b := rfl
    rw [h2] at h1
    rw [h1]
    simp [tokNames, Tok.refs, hrange]
  unfold interactive_selection
  by_cases hrep : repos.isEmpty
  · rw [if_pos hrep]
  · rw [if_neg hrep]
    simp only [selection_loop, hatt]

/-- Witness for C9: the descending range `3-1` against one repository. -/
theorem claim_C9_witness :
    parsePart [repoA] (['3'] ++ '-' :: ['1']) = some [] ∧
    interactive_selection [repoA] ((['3'] ++ '-' :: ['1']) :: []) = some [] :=
  claim_C9 [repoA] ['3'] ['1'] [] (by decide) (by decide) (by decide)

/-- Claim C2: for every sequence of pages answered by the list-repos
endpoint, `get_public_repos` terminates at the first page with zero items,
and the returned list equals the in-order concatenation of each fetched
page's items filtered to those whose owner login equals the configured
username (`ownedFilter` discards every repo with a different owner
login). -/
theorem claim_C2 (username : Str) (pagesItems : List (List Repo)) :
    get_public_repos username (pagesItems.map PageResp.ok) =
      ((pagesItems.takeWhile (fun p => !p.isEmpty)).map
        (ownedFilter username)).flatten := by
  induction pagesItems with
  | nil => rfl
  | cons p rest ih =>
    by_cases hp : p.isEmpty
    · simp [get_public_repos, List.takeWhile_cons, hp]
    · simp [get_public_repos, List.takeWhile_cons, hp, ih]

/-- Claim C7: when some page request fails with a request error,
`get_public_repos` stops paginating at the failing page and returns the
owner-filtered items accumulated from all earlier (nonempty) successful
pages, rather than raising or discarding them. -/
theorem claim_C7 (username : Str) (okPages : List (List Repo))
    (rest : List PageResp) (h : ∀ p ∈ okPages, p ≠ []) :
    get_public_repos username (okPages.map PageResp.ok ++ PageResp.err :: rest) =
      (okPages.map (ownedFilter username)).flatten := by
  induction okPages with
  | nil => rfl
  | cons p ps ih =>
    have hp : ¬ p.isEmpty = true := by
      simp only [List.isEmpty_iff]
      exact h p (by simp)
    have ihr := ih (fun q hq => h q (by simp [hq]))
    simp [get_public_repos, hp, ihr]

/-- Witness for C7: one successful nonempty page followed by a failing
page request; the repo of the first page is returned. -/
theorem claim_C7_witness :
    get_public_repos ['u'] ([[repoA]].map PageResp.ok ++ PageResp.err :: []) =
      ([[repoA]].map (ownedFilter ['u'])).flatten :=
  claim_C7 ['u'] [[repoA]] [] (by decide)

/-- Claim C3 counterexample: with one fetched repository `a` and the batch
argument `a,a`, the selection is the list `[a, a]`, which is not
deduplicated — refuting the claim that the resulting batch selection is a
deduplicated set. -/
theorem claim_C3_counterexample :
    batch_selected [repoA] ['a', ',', 'a'] = [['a'], ['a']] ∧
    ¬ (batch_selected [repoA] ['a', ',', 'a']).Nodup := by decide

/-- Claim C3 (amended): in batch mode the selected names are exactly the
input names that occur among the fetched repository names (kept as a list
in input order with input multiplicity, so duplicates in the batch argument
are not deduplicated), and the reported missing names are exactly input
minus fetched (deduplicated). -/
theorem claim_C3_amended (repos : List Repo) (batch : Str) :
    (∀ n, n ∈ batch_selected repos batch ↔
      n ∈ batch_parse batch ∧ n ∈ repos.map Repo.name) ∧
    (∀ n, n ∈ batch_missing repos batch ↔
      n ∈ batch_parse batch ∧ n ∉ repos.map Repo.name) ∧
    (batch_missing repos batch).Nodup := by
  refine ⟨?_, ?_, ?_⟩
  · intro n
    simp [batch_selected, List.mem_filter]
  · intro n
    simp only [batch_missing, List.mem_dedup, List.mem_filter, batch_selected,
      decide_eq_true_eq]
    constructor
    · rintro ⟨h1, h2⟩
      exact ⟨h1, fun hm => h2 (by simp [List.mem_filter, h1, hm])⟩
    · rintro ⟨h1, h2⟩
      refine ⟨h1, fun hm => ?_⟩
      simp only [List.mem_filter, decide_eq_true_eq] at hm
      exact h2 hm.2
  · exact List.nodup_dedup _

/-- Claim C4: for every nonempty selection and every confirmation response
other than `yes`/`y` (after stripping and lowercasing), `confirm_action`
returns false and the program issues zero PATCH calls, aborting the update
step. -/
theorem claim_C4 (repos : List Repo) (sel : List Str) (w : World)
    (hne : sel ≠ [])
    (hy : pyLower (pyStrip w.confirmResp) ≠ yesStr)
    (hy2 : pyLower (pyStrip w.confirmResp) ≠ yStr) :
    confirm_action sel w.confirmResp = false ∧
    (afterSelect repos sel w).patchCalls = [] := by
  have hc : confirm_action sel w.confirmResp = false := by
    unfold confirm_action
    rw [if_neg (by simp [List.isEmpty_iff, hne])]
    simp only
    rw [if_neg (by rintro (h | h) <;> [exact hy h; exact hy2 h])]
  refine ⟨hc, ?_⟩
  unfold afterSelect
  rw [if_neg (by simp [hc])]

/-- Witness for C4: the nonempty selection `[a]` with the declined
confirmation response `no` issues no PATCH calls. -/
theorem claim_C4_witness :
    confirm_action [['a']]
        (World.mk [] [] AuthResp.netErr [] Mode.interactive [] ['n', 'o']
          (fun _ => PatchResp.netErr)).confirmResp = false ∧
    (afterSelect [repoA] [['a']]
        (World.mk [] [] AuthResp.netErr [] Mode.interactive [] ['n', 'o']
          (fun _ => PatchResp.netErr))).patchCalls = [] :=
  claim_C4 [repoA] [['a']]
    (World.mk [] [] AuthResp.netErr [] Mode.interactive [] ['n', 'o']
      (fun _ => PatchResp.netErr))
    (by decide) (by decide) (by decide)

/-- Claim C5 counterexample: `raise_for_status` only raises for statuses in
`[400, 600)`, so a 304 PATCH response makes `make_repo_private` return true
even though 304 is not a 2xx status — refuting "returns true if and only if
the PATCH response status is 2xx". -/
theorem claim_C5_counterexample :
    make_repo_private (PatchResp.ok 304) = true ∧ ¬ (200 ≤ 304 ∧ 304 ≤ 299) := by
  decide

/-- Claim C5 (amended): `make_repo_private` returns true iff the PATCH
response is a status outside `[400, 600)` (so every 2xx yields true, and
every 4xx, 5xx or network error yields false); a false result does not halt
processing — `process_repos` attempts every selected repository in order —
and the final summary reports the number of successful updates out of the
total selected count. -/
theorem claim_C5_amended :
    (∀ r : PatchResp, make_repo_private r = true ↔
      ∃ s, r = PatchResp.ok s ∧ ¬ (400 ≤ s ∧ s < 600)) ∧
    (∀ (patchOf : Str → PatchResp) (names : List Str),
      (process_repos patchOf names).1 = names ∧
      (process_repos patchOf names).2 =
        names.countP (fun n => make_repo_private (patchOf n))) := by
  constructor
  · intro r
    cases r with
    | netErr => simp [make_repo_private]
    | ok s =>
      simp only [make_repo_private]
      by_cases h : 400 ≤ s ∧ s < 600
      · rw [if_pos h]
        simp only [Bool.false_eq_true, false_iff]
        rintro ⟨s2, he, hP⟩
        rw [PatchResp.ok.injEq] at he
        subst he
        exact hP h
      · rw [if_neg h]
        simp only [true_iff]
        exact ⟨s, rfl, h⟩
  · intro patchOf names
    induction names with
    | nil => exact ⟨rfl, rfl⟩
    | cons n rest ih =>
      unfold process_repos
      by_cases h : make_repo_private (patchOf n) = true
      · simp [h, List.countP_cons, ih.1, ih.2]
      · rw [if_neg h]
        rw [Bool.not_eq_true] at h
        simp [h, List.countP_cons, ih.1, ih.2]

/-- Claim C6 counterexample: a 200 response whose JSON body has no `login`
field makes `test_authentication` raise an uncaught `KeyError` (only
`requests.RequestException` is handled) instead of returning — refuting "it
never raises". -/
theorem claim_C6_counterexample :
    test_authentication (AuthResp.ok 200 none) = AuthResult.raised ∧
    AuthResult.raised ≠ AuthResult.retFalse ∧
    AuthResult.raised ≠ AuthResult.retTrue := by decide

/-- Claim C6 (amended): `test_authentication` returns true iff the response
has status 200 and contains a login field; it returns false on every
non-200 response and on network failure; on a 200 response lacking a login
field it raises an uncaught `KeyError` instead of returning false (the
generic handler in `main` then exits 1); and every non-true outcome aborts
the run before any listing with exit code 1. -/
theorem claim_C6_amended :
    (∀ r, test_authentication r = AuthResult.retTrue ↔
      ∃ l, r = AuthResp.ok 200 (some l)) ∧
    (∀ (s : Nat) (lo : Option Str), s ≠ 200 →
      test_authentication (AuthResp.ok s lo) = AuthResult.retFalse) ∧
    test_authentication AuthResp.netErr = AuthResult.retFalse ∧
    test_authentication (AuthResp.ok 200 none) = AuthResult.raised ∧
    (∀ w : World, test_authentication w.authResp ≠ AuthResult.retTrue →
      (run_main w).listed = false ∧ (run_main w).exitCode = some 1) := by
  refine ⟨?_, ?_, rfl, rfl, ?_⟩
  · intro r
    cases r with
    | netErr => simp [test_authentication]
    | ok s lo =>
      simp only [test_authentication]
      by_cases hs : s = 200
      · subst hs
        rw [if_pos rfl]
        cases lo with
        | none => simp
        | some l => simp
      · rw [if_neg hs]
        simp [hs]
  · intro s lo hs
    simp only [test_authentication]
    rw [if_neg hs]
  · intro w hw
    unfold run_main
    by_cases hcred : (w.token.isEmpty || w.username.isEmpty) = true
    · rw [if_pos hcred]
      exact ⟨rfl, rfl⟩
    · rw [if_neg hcred]
      cases ha : test_authentication w.authResp with
      | retTrue => exact absurd ha hw
      | retFalse => exact ⟨rfl, rfl⟩
      | raised => exact ⟨rfl, rfl⟩

def wBad : World :=
  World.mk ['t'] ['u'] (AuthResp.ok 404 none) [] Mode.interactive []
    [] (fun _ => PatchResp.netErr)

/-- Witness for C6 (amended): a 404 authentication response returns false,
and the run with that response performs no listing and exits 1. -/
theorem claim_C6_witness :
    test_authentication (AuthResp.ok 404 none) = AuthResult.retFalse ∧
    ((run_main wBad).listed = false ∧ (run_main wBad).exitCode = some 1) :=
  ⟨claim_C6_amended.2.1 404 none (by decide),
   claim_C6_amended.2.2.2.2 wBad (by decide)⟩

/-- Claim C8: a run that exits does so with code 0 exactly when the
credentials are present and authentication returned true (the non-true
authentication outcomes cover both the clean failure and the unexpected
`KeyError`); in particular runs whose individual repository updates fail
still exit 0. -/
theorem claim_C8 (w : World) (c : Nat)
    (h : (run_main w).exitCode = some c) :
    c = 0 ↔ (w.token ≠ [] ∧ w.username ≠ [] ∧
      test_authentication w.authResp = AuthResult.retTrue) := by
  simp only [run_main] at h
  by_cases hcred : (w.token.isEmpty || w.username.isEmpty) = true
  · rw [if_pos hcred] at h
    have hc1 : c = 1 := by simpa using h.symm
    subst hc1
    simp only [Bool.or_eq_true, List.isEmpty_iff] at hcred
    constructor
    · intro h0
      exact absurd h0 one_ne_zero
    · rintro ⟨h1, h2, _⟩
      rcases hcred with hc | hc
      · exact absurd hc h1
      · exact absurd hc h2
  · rw [if_neg hcred] at h
    simp only [Bool.or_eq_true, List.isEmpty_iff, not_or] at hcred
    split at h
    · rename_i ha
      have hc0 : c = 0 := by
        split at h
        · simpa using h.symm
        · split at h
          · rename_i hsel
            rw [(afterSelect_exit _ _ _).1] at h
            simpa using h.symm
          · simp at h
      subst hc0
      simp [ha, hcred.1, hcred.2]
    · rename_i ha
      have hc1 : c = 1 := by simpa using h.symm
      subst hc1
      constructor
      · intro h0
        exact absurd h0 one_ne_zero
      · rintro ⟨_, _, ht⟩
        rw [ha] at ht
        exact absurd ht (by decide)
    · rename_i ha
      have hc1 : c = 1 := by simpa using h.symm
      subst hc1
      constructor
      · intro h0
        exact absurd h0 one_ne_zero
      · rintro ⟨_, _, ht⟩
        rw [ha] at ht
        exact absurd ht (by decide)

def wOk : World :=
  World.mk ['t'] ['u'] (AuthResp.ok 200 (some ['u']))
    [PageResp.ok [repoA]] Mode.allFlag [] ['y'] (fun _ => PatchResp.netErr)

/-- Witness for C8: a run whose every PATCH fails with a network error
still exits 0. -/
theorem claim_C8_witness :
    0 = 0 ↔ (wOk.token ≠ [] ∧ wOk.username ≠ [] ∧
      test_authentication wOk.authResp = AuthResult.retTrue) :=
  claim_C8 wOk 0 (by decide)

/-- Claim C10: for the empty selection, `confirm_action` returns false for
every possible response (so no prompt can influence it), `process_repos`
issues no update calls, and the post-selection step of `main` takes the
cancelled path with zero PATCH requests and a normal exit. -/
theorem claim_C10 :
    (∀ resp : Str, confirm_action [] resp = false) ∧
    (∀ patchOf : Str → PatchResp, process_repos patchOf [] = ([], 0)) ∧
    (∀ (repos : List Repo) (w : World),
      afterSelect repos [] w = ⟨some 0, true, []⟩) :=
  ⟨fun _ => rfl, fun _ => rfl, fun _ _ => rfl⟩
